import Mathlib

/-!
Verification of the ask-ai repository: a minimal RAG store consisting of a
word-window chunker (`chunk_text` in final.py / nick.py), a SQLite-backed
document/chunk store (`add_document_from_file`, `add_document_from_text`,
`reindex_document`), and a retriever (`retrieve_chunks`, `cosine_similarity`
in sad.py).  Python strings are modelled as Lean `String`; the Python string
primitives used by the source (`str.split()`, `str.join`, `str.strip()`) are
modelled below over the character list `String.data`.  SQLite tables are
modelled as Lean lists of rows; a transaction that raises before `commit` is
rolled back, so a failing operation is modelled as an `Except.error` that
leaves the caller's store untouched.
-/

namespace AskAi

/-- Model of Python `str.split()` (no separator argument): splits on runs of
whitespace and never yields empty pieces.  The accumulator holds the current
word's characters in reverse. -/
def pySplitAux : List Char → List Char → List String
  | [], cur => if cur.isEmpty then [] else [String.mk cur.reverse]
  | c :: cs, cur =>
    if c.isWhitespace then
      if cur.isEmpty then pySplitAux cs []
      else String.mk cur.reverse :: pySplitAux cs []
    else pySplitAux cs (c :: cur)

/-- Model of Python `text.split()`. -/
def pySplit (s : String) : List String := pySplitAux s.data []

/-- Model of Python `sep.join(pieces)`. -/
def pyJoin (sep : String) : List String → String
  | [] => ""
  | [w] => w
  | w :: x :: ws => w ++ sep ++ pyJoin sep (x :: ws)

/-- Characters of a string after Python `str.strip()`: drop leading and
trailing whitespace. -/
def stripData (l : List Char) : List Char :=
  ((l.dropWhile Char.isWhitespace).reverse.dropWhile Char.isWhitespace).reverse

/-- Model of Python `s.strip()`. -/
def pyStrip (s : String) : String := String.mk (stripData s.data)

/-- The token slice `words[s:e]` of Python list slicing (with `s ≤ e` and
clamping at the end of the list). -/
def sliceWords (words : List String) (s e : Nat) : List String :=
  (words.drop s).take (e - s)

/-- The chunk string built from the token window `[s, e)`:
Python's expression `" ".join(words[start:end]).strip()`. -/
def renderChunk (words : List String) (s e : Nat) : String :=
  pyStrip (pyJoin " " (sliceWords words s e))

/-- The `while start < n` loop of `chunk_text` (final.py lines 67-77,
nick.py lines 62-72).  `fuel` is a structural-recursion bound; the caller
passes `n`, which suffices because the step is at least 1 so the loop runs at
most `n` times. -/
def chunkLoop (words : List String) (n cs step : Nat) : Nat → Nat → List String
  | _start, 0 => []
  | start, fuel + 1 =>
    if start < n then
      let e := min (start + cs) n
      let chunk := renderChunk words start e
      let rest := if e = n then [] else chunkLoop words n cs step (start + step) fuel
      if chunk = "" then rest else chunk :: rest
    else []

/-- The window `(start, end)` index pairs produced by the same loop as
`chunkLoop`: the instrumented form used to speak about token coverage and
about each chunk's end index. -/
def chunkSpans (n cs step : Nat) : Nat → Nat → List (Nat × Nat)
  | _start, 0 => []
  | start, fuel + 1 =>
    if start < n then
      let e := min (start + cs) n
      (start, e) :: (if e = n then [] else chunkSpans n cs step (start + step) fuel)
    else []

/-- Function `chunk_text` of final.py lines 59-78 (identical in nick.py lines 54-73):
validates `chunk_size_words`, clamps an oversized overlap to
`max(0, chunk_size_words // 4)`, then slides a word window of `chunk_size_words`
tokens advancing by `chunk_size_words - chunk_overlap_words` tokens.
`Except.error` models the raised `ValueError`. -/
def chunk_text (text : String) (chunk_size_words chunk_overlap_words : Int) :
    Except String (List String) :=
  if chunk_size_words ≤ 0 then Except.error "chunk_size_words must be > 0"
  else
    let ov := if chunk_overlap_words ≥ chunk_size_words
              then max 0 (chunk_size_words / 4)
              else chunk_overlap_words
    let words := pySplit text
    let n := words.length
    Except.ok (chunkLoop words n chunk_size_words.toNat (chunk_size_words - ov).toNat 0 n)

/-! The document store of final.py (tables `documents` and `chunks`, created
with `PRAGMA foreign_keys = ON`).  A table is a list of rows in insertion
order.  Each operation opens its own connection and commits at the end; an
exception raised before `commit` closes the connection without committing, so
SQLite rolls the transaction back — a failing operation is therefore an
`Except.error` and leaves the caller's store unchanged.  The opaque outputs of
the external collaborators are parameters: `fs` models the file system
(`os.path.exists` succeeds exactly when the file is readable), `genId` models
`uuid.uuid4()` for chunk ids, `embed` models the sentence-transformer encoding
serialized with `json.dumps`. -/

structure DocRow where
  id : String
  title : String
  path : String
  uploaded_at : String
deriving DecidableEq

structure ChunkRow where
  id : String
  document_id : String
  chunk_index : Int
  text : String
  embedding : String
deriving DecidableEq

structure Store where
  documents : List DocRow
  chunks : List ChunkRow
deriving DecidableEq

/-- Error outcomes of the store operations.  `notFound` models
`ValueError("document_id not found")`, `fileNotFound` models
`FileNotFoundError`, `validationError` models `ValueError("File is empty")`,
`invalidConfiguration` models the `ValueError` raised by `chunk_text`, and
`fkViolation` models the `sqlite3.IntegrityError` raised when a chunk row is
inserted for a `document_id` absent from `documents` (foreign keys are ON). -/
inductive DbError where
  | notFound
  | fileNotFound
  | validationError
  | invalidConfiguration
  | fkViolation
deriving DecidableEq

/-- The query `SELECT ... FROM documents WHERE id = ?` (first match). -/
def findDoc (st : Store) (docId : String) : Option DocRow :=
  st.documents.find? (fun d => d.id == docId)

/-- The chunk rows inserted by the `for idx, chunk in enumerate(chunks)` loop
of final.py lines 113-121 and 169-177. -/
def buildChunkRows (docId : String) (genId : Nat → String)
    (embed : String → String) (pieces : List String) : List ChunkRow :=
  pieces.enum.map (fun p => ChunkRow.mk (genId p.1) docId (Int.ofNat p.1) p.2 (embed p.2))

/-- The part of `reindex_document` (final.py lines 159-182) that runs after
the text path has been resolved: existence check and read of the source,
`DELETE FROM chunks WHERE document_id = ?`, re-chunking, and insertion of the
new chunk rows (which trips the foreign-key constraint when the document row
does not exist and at least one chunk is inserted). -/
def reindexFromPath (fs : String → Option String) (genId : Nat → String)
    (embed : String → String) (st : Store) (document_id : String)
    (path : String) (cs ov : Int) : Except DbError (Store × Nat) :=
  match fs path with
  | none => Except.error DbError.fileNotFound
  | some text =>
    match chunk_text text cs ov with
    | Except.error _ => Except.error DbError.invalidConfiguration
    | Except.ok pieces =>
      if 0 < pieces.length ∧ (findDoc st document_id).isNone
      then Except.error DbError.fkViolation
      else Except.ok
        (Store.mk st.documents
          (st.chunks.filter (fun c => decide (¬ c.document_id = document_id)) ++
            buildChunkRows document_id genId embed pieces),
         pieces.length)

/-- Function `reindex_document` of final.py lines 148-182 (same in nick.py lines
160-199): when no new file path is supplied the stored path is looked up and a
missing document raises `ValueError("document_id not found")`; then the
resolved source is read and the chunk set is replaced. -/
def reindex_document (fs : String → Option String) (genId : Nat → String)
    (embed : String → String) (st : Store) (document_id : String)
    (new_file_path : Option String) (cs ov : Int) : Except DbError (Store × Nat) :=
  match new_file_path with
  | some p => reindexFromPath fs genId embed st document_id p cs ov
  | none =>
    match findDoc st document_id with
    | none => Except.error DbError.notFound
    | some row => reindexFromPath fs genId embed st document_id row.path cs ov

/-- Model of `os.path.basename`: the part of the path after the last slash. -/
def basenameAux : List Char → List Char → List Char
  | [], cur => cur.reverse
  | c :: cs, cur => if c = '/' then basenameAux cs [] else basenameAux cs (c :: cur)

def basename (p : String) : String := String.mk (basenameAux p.data [])

/-- Function `add_document_from_file` of final.py lines 89-128: existence check, read,
rejection of empty or whitespace-only text (`ValueError("File is empty")`)
before any row is written, insertion of the document row, chunking, and
insertion of the chunk rows. -/
def add_document_from_file (fs : String → Option String) (docId : String)
    (genId : Nat → String) (embed : String → String) (now : String) (st : Store)
    (file_path : String) (title : Option String) (cs ov : Int) :
    Except DbError (Store × String × Nat) :=
  match fs file_path with
  | none => Except.error DbError.fileNotFound
  | some text =>
    if pyStrip text = "" then Except.error DbError.validationError
    else
      match chunk_text text cs ov with
      | Except.error _ => Except.error DbError.invalidConfiguration
      | Except.ok pieces =>
        Except.ok
          (Store.mk
            (st.documents ++ [DocRow.mk docId (title.getD (basename file_path)) file_path now])
            (st.chunks ++ buildChunkRows docId genId embed pieces),
           docId, pieces.length)

/-- Function `add_document_from_text` of final.py lines 130-138: an empty or
whitespace-only text is answered with the string "❌ No text provided" (no
exception, no database access); otherwise the text is written to a fresh
temporary file and ingested through `add_document_from_file`. -/
def add_document_from_text (fs : String → Option String) (tmpPath docId : String)
    (genId : Nat → String) (embed : String → String) (now : String) (st : Store)
    (text title : String) (cs ov : Int) : Except DbError (Store × String) :=
  if pyStrip text = "" then Except.ok (st, "❌ No text provided")
  else
    match add_document_from_file (fun p => if p = tmpPath then some text else fs p)
        docId genId embed now st tmpPath (some title) cs ov with
    | Except.error e => Except.error e
    | Except.ok (st2, did, n) =>
      Except.ok (st2, "✅ Added text as document ID " ++ did ++ " with " ++
        toString n ++ " chunks.")


/-! The retriever of sad.py.  `cosine_similarity` computes
`np.dot(a, b) / (np.linalg.norm(a) * np.linalg.norm(b))` over IEEE floats;
because the norms involve square roots the similarity values are modelled as
an abstract parameter `sim` over rational embeddings, and the dot product and
squared norm appearing in its formula are modelled exactly (`dotQ`, `normSq`)
to analyse the zero-magnitude denominator.  `parse` models the
`json.loads` / comma-split decoding of the stored embedding string, and
`encode` models `model.encode` for the query. -/

structure ScoredChunk where
  sim : Rat
  doc : String
  idx : Int
  text : String
deriving DecidableEq

/-- One step of Python's stable sort with `reverse=True` on the key `key`: a
later element is inserted after every already-placed element whose key is at
least as large, so equal keys keep their original relative order. -/
def pyInsertDesc {α : Type} (key : α → Rat) (e : α) : List α → List α
  | [] => [e]
  | h :: t => if key h < key e then e :: h :: t else h :: pyInsertDesc key e t

/-- Model of `similarities.sort(key=lambda x: x[0], reverse=True)` (sad.py
line 55): a stable descending sort by key. -/
def pySortDesc {α : Type} (key : α → Rat) (l : List α) : List α :=
  l.foldl (fun acc e => pyInsertDesc key e acc) []

/-- The dot product `np.dot(a, b)` of the cosine-similarity formula (sad.py
line 27), over the rational model of the embedding values. -/
def dotQ (a b : List Rat) : Rat := ((a.zip b).map (fun p => p.1 * p.2)).sum

/-- The squared Euclidean norm `np.linalg.norm(a) ** 2 = np.dot(a, a)`: the
denominator `norm(a) * norm(b)` of `cosine_similarity` is zero exactly when
`normSq a * normSq b` is zero. -/
def normSq (a : List Rat) : Rat := dotQ a a

/-- The query `SELECT text FROM chunks WHERE document_id=? AND chunk_index
BETWEEN ? AND ?` of sad.py lines 64-67, with bounds `idx - 1` and `idx + 1`,
in stored row order. -/
def neighborTexts (rows : List ChunkRow) (d : String) (i : Int) : List String :=
  (rows.filter (fun c =>
    decide (c.document_id = d ∧ i - 1 ≤ c.chunk_index ∧ c.chunk_index ≤ i + 1))).map
    (fun c => c.text)

/-- The `seen`-set deduplication loop of sad.py lines 71-76: keep the first
occurrence of each text, in order. -/
def pyDedupAux : List String → List String → List String
  | _seen, [] => []
  | seen, c :: rest =>
    if c ∈ seen then pyDedupAux seen rest else c :: pyDedupAux (c :: seen) rest

def pyDedup (l : List String) : List String := pyDedupAux [] l

/-- The similarity scan of sad.py lines 46-53: one `(sim, document_id,
chunk_index, text)` entry per stored chunk row, in table scan order. -/
def scanScores (sim : List Rat → List Rat → Rat) (parse : String → List Rat)
    (q : List Rat) (rows : List ChunkRow) : List ScoredChunk :=
  rows.map (fun c => ScoredChunk.mk (sim q (parse c.embedding)) c.document_id c.chunk_index c.text)

/-- Function `retrieve_chunks` of sad.py lines 38-78: scan all chunk rows, rank by
similarity descending (stable), take the top `k`, expand each hit with its
stored neighbours at `chunk_index` within `[idx - 1, idx + 1]` of the same
document, and deduplicate keeping first occurrences. -/
def retrieve_chunks (sim : List Rat → List Rat → Rat) (parse : String → List Rat)
    (encode : String → List Rat) (st : Store) (query : String) (k : Nat) :
    List String :=
  let q := encode query
  let similarities := scanScores sim parse q st.chunks
  let ranked := pySortDesc (fun sc => sc.sim) similarities
  let top_chunks := ranked.take k
  let context_chunks := top_chunks.flatMap
    (fun h => h.text :: neighborTexts st.chunks h.doc h.idx)
  pyDedup context_chunks

/-- C2: chunking the text "a b c d e f g h" with window_size 3 and overlap 1
returns exactly the chunks ["a b c", "c d e", "e f g", "g h"]. -/
theorem chunk_text_example_abc : chunk_text "a b c d e f g h" 3 1 =
    Except.ok ["a b c", "c d e", "e f g", "g h"] := rfl

/-! Lemmas about the window spans of the chunking loop. -/

theorem chunkSpans_cover (n cs step : Nat) (hstep : 0 < step) (hsc : step ≤ cs) :
    ∀ fuel start, n - start ≤ fuel → ∀ i, start ≤ i → i < n →
      ∃ p ∈ chunkSpans n cs step start fuel, p.1 ≤ i ∧ i < p.2 := by
  intro fuel
  induction fuel with
  | zero => intro start h i h1 h2; omega
  | succ fuel ih =>
    intro start hfuel i hi1 hi2
    have hlt : start < n := by omega
    have hsp : chunkSpans n cs step start (fuel + 1) =
        (start, min (start + cs) n) ::
          (if min (start + cs) n = n then []
           else chunkSpans n cs step (start + step) fuel) := by
      simp [chunkSpans, hlt]
    by_cases he : min (start + cs) n = n
    · exact ⟨(start, min (start + cs) n), by simp [hsp], hi1, by omega⟩
    · have hcsn : min (start + cs) n = start + cs := by omega
      by_cases hie : i < start + cs
      · exact ⟨(start, min (start + cs) n), by simp [hsp], hi1, by omega⟩
      · obtain ⟨p, hp, hp1, hp2⟩ :=
          ih (start + step) (by omega) i (by omega) hi2
        exact ⟨p, by simp [hsp, he, hp], hp1, hp2⟩

theorem chunkSpans_last (n cs step : Nat) (hstep : 0 < step) (hsc : step ≤ cs) :
    ∀ fuel start, n - start ≤ fuel → start < n →
      ∃ s, (chunkSpans n cs step start fuel).getLast? = some (s, n) := by
  intro fuel
  induction fuel with
  | zero => intro start h hlt; omega
  | succ fuel ih =>
    intro start hfuel hlt
    have hsp : chunkSpans n cs step start (fuel + 1) =
        (start, min (start + cs) n) ::
          (if min (start + cs) n = n then []
           else chunkSpans n cs step (start + step) fuel) := by
      simp [chunkSpans, hlt]
    by_cases he : min (start + cs) n = n
    · exact ⟨start, by simp [hsp, he]⟩
    · have hcsn : min (start + cs) n = start + cs := by omega
      obtain ⟨s, hs⟩ := ih (start + step) (by omega) (by omega)
      cases hrest : chunkSpans n cs step (start + step) fuel with
      | nil => rw [hrest] at hs; simp at hs
      | cons r rs =>
        refine ⟨s, ?_⟩
        rw [hsp, if_neg he, hrest, List.getLast?_cons_cons, ← hrest, hs]

theorem chunkSpans_wf (n cs step : Nat) (hcs : 0 < cs) :
    ∀ fuel start, ∀ p ∈ chunkSpans n cs step start fuel,
      start ≤ p.1 ∧ p.1 < p.2 ∧ p.2 ≤ n := by
  intro fuel
  induction fuel with
  | zero => intro start p hp; simp [chunkSpans] at hp
  | succ fuel ih =>
    intro start p hp
    by_cases hlt : start < n
    · rw [show chunkSpans n cs step start (fuel + 1) =
          (start, min (start + cs) n) ::
            (if min (start + cs) n = n then []
             else chunkSpans n cs step (start + step) fuel) from by
          simp [chunkSpans, hlt]] at hp
      rcases List.mem_cons.mp hp with h | h
      · subst h; refine ⟨le_refl _, by omega, by omega⟩
      · by_cases he : min (start + cs) n = n
        · simp [he] at h
        · rw [if_neg he] at h
          obtain ⟨h1, h2, h3⟩ := ih (start + step) p h
          exact ⟨by omega, h2, h3⟩
    · simp [chunkSpans, hlt] at hp

theorem chunkSpans_first (n cs step : Nat) :
    ∀ fuel start p l, chunkSpans n cs step start fuel = p :: l → p.1 = start := by
  intro fuel start p l h
  cases fuel with
  | zero => simp [chunkSpans] at h
  | succ fuel =>
    by_cases hlt : start < n
    · simp [chunkSpans, hlt] at h
      obtain ⟨h1, _⟩ := h
      rw [← h1]
    · simp [chunkSpans, hlt] at h

theorem chunkSpans_chain (n cs step : Nat) :
    ∀ fuel start,
      List.Chain' (fun p q => q.1 = p.1 + step) (chunkSpans n cs step start fuel) := by
  intro fuel
  induction fuel with
  | zero => intro start; simp [chunkSpans]
  | succ fuel ih =>
    intro start
    by_cases hlt : start < n
    · rw [show chunkSpans n cs step start (fuel + 1) =
          (start, min (start + cs) n) ::
            (if min (start + cs) n = n then []
             else chunkSpans n cs step (start + step) fuel) from by
          simp [chunkSpans, hlt]]
      rw [List.chain'_cons']
      constructor
      · intro q hq
        by_cases he : min (start + cs) n = n
        · simp [he] at hq
        · rw [if_neg he] at hq
          cases hrest : chunkSpans n cs step (start + step) fuel with
          | nil => rw [hrest] at hq; simp at hq
          | cons r rs =>
            rw [hrest] at hq
            simp at hq
            rw [← hq]
            exact (chunkSpans_first n cs step fuel (start + step) r rs hrest).symm ▸
              (chunkSpans_first n cs step fuel (start + step) r rs hrest)
      · by_cases he : min (start + cs) n = n
        · simp [he]
        · rw [if_neg he]; exact ih (start + step)
    · simp [chunkSpans, hlt]

theorem chunkLoop_eq_spans (words : List String) (n cs step : Nat) :
    ∀ fuel start, chunkLoop words n cs step start fuel =
      (chunkSpans n cs step start fuel).filterMap
        (fun p => if renderChunk words p.1 p.2 = "" then none
                  else some (renderChunk words p.1 p.2)) := by
  intro fuel
  induction fuel with
  | zero => intro start; simp [chunkLoop, chunkSpans]
  | succ fuel ih =>
    intro start
    by_cases hlt : start < n
    · simp only [chunkLoop, chunkSpans, if_pos hlt, List.filterMap_cons]
      by_cases he : min (start + cs) n = n
      · by_cases hc : renderChunk words start n = ""
        · simp [he, hc]
        · simp [he, hc]
      · simp only [if_neg he, ih (start + step)]
        by_cases hc : renderChunk words start (min (start + cs) n) = ""
        · simp [hc]
        · simp [hc]
    · simp [chunkLoop, chunkSpans, hlt]

/-! Lemmas about the modelled Python string primitives. -/

theorem data_append (a b : String) : (a ++ b).data = a.data ++ b.data := by
  cases a; cases b; rfl

theorem mk_eq_empty_iff (l : List Char) : String.mk l = "" ↔ l = [] := by
  constructor
  · intro h; simpa using congrArg String.data h
  · intro h; rw [h]

theorem pySplitAux_wordlike :
    ∀ l cur, (∀ c ∈ cur, c.isWhitespace = false) →
      ∀ w ∈ pySplitAux l cur, w ≠ "" ∧ ∀ c ∈ w.data, c.isWhitespace = false := by
  intro l
  induction l with
  | nil =>
    intro cur hcur w hw
    by_cases hc : cur.isEmpty
    · simp [pySplitAux, hc] at hw
    · simp [pySplitAux, hc] at hw
      subst hw
      refine ⟨?_, ?_⟩
      · rw [Ne, mk_eq_empty_iff]
        simp [List.isEmpty_iff] at hc
        simpa using hc
      · intro c hcmem
        simp at hcmem
        exact hcur c hcmem
  | cons a as ih =>
    intro cur hcur w hw
    by_cases haw : a.isWhitespace
    · by_cases hc : cur.isEmpty
      · rw [show pySplitAux (a :: as) cur = pySplitAux as [] from by
            simp [pySplitAux, haw, hc]] at hw
        exact ih [] (by simp) w hw
      · rw [show pySplitAux (a :: as) cur =
            String.mk cur.reverse :: pySplitAux as [] from by
            simp [pySplitAux, haw, hc]] at hw
        rcases List.mem_cons.mp hw with h | h
        · subst h
          refine ⟨?_, ?_⟩
          · rw [Ne, mk_eq_empty_iff]
            simp [List.isEmpty_iff] at hc
            simpa using hc
          · intro c hcmem
            simp at hcmem
            exact hcur c hcmem
        · exact ih [] (by simp) w h
    · rw [show pySplitAux (a :: as) cur = pySplitAux as (a :: cur) from by
          simp [pySplitAux, haw]] at hw
      refine ih (a :: cur) ?_ w hw
      intro c hcmem
      rcases List.mem_cons.mp hcmem with h | h
      · subst h; simpa using haw
      · exact hcur c h

theorem pySplit_wordlike (text : String) :
    ∀ w ∈ pySplit text, w ≠ "" ∧ ∀ c ∈ w.data, c.isWhitespace = false :=
  pySplitAux_wordlike text.data [] (by simp)

theorem mem_dropWhile_of_neg {α : Type} (p : α → Bool) :
    ∀ l : List α, ∀ x ∈ l, p x = false → x ∈ l.dropWhile p := by
  intro l
  induction l with
  | nil => intro x hx; simp at hx
  | cons a as ih =>
    intro x hx hpx
    by_cases hpa : p a
    · rw [List.dropWhile_cons_of_pos hpa]
      rcases List.mem_cons.mp hx with h | h
      · subst h; rw [hpx] at hpa; simp at hpa
      · exact ih x h hpx
    · rw [List.dropWhile_cons_of_neg hpa]
      exact hx

theorem mem_stripData (l : List Char) (c : Char) (hc : c ∈ l)
    (hw : c.isWhitespace = false) : c ∈ stripData l := by
  unfold stripData
  rw [List.mem_reverse]
  refine mem_dropWhile_of_neg _ _ c ?_ hw
  rw [List.mem_reverse]
  exact mem_dropWhile_of_neg _ _ c hc hw

theorem renderChunk_ne_empty (words : List String)
    (hw : ∀ w ∈ words, w ≠ "" ∧ ∀ c ∈ w.data, c.isWhitespace = false)
    (s e : Nat) (hse : s < e) (hen : s < words.length) :
    renderChunk words s e ≠ "" := by
  have hslice : ∃ w rest, sliceWords words s e = w :: rest ∧ w ∈ words := by
    have hlen : 0 < (sliceWords words s e).length := by
      unfold sliceWords
      rw [List.length_take, List.length_drop]
      omega
    cases hsl : sliceWords words s e with
    | nil => rw [hsl] at hlen; simp at hlen
    | cons w rest =>
      refine ⟨w, rest, rfl, ?_⟩
      have : w ∈ sliceWords words s e := by rw [hsl]; exact List.mem_cons_self w rest
      unfold sliceWords at this
      exact List.mem_of_mem_drop (List.mem_of_mem_take this)
  obtain ⟨w, rest, hsl, hwmem⟩ := hslice
  obtain ⟨hwne, hwchars⟩ := hw w hwmem
  obtain ⟨c, cs, hcData⟩ : ∃ c cs, w.data = c :: cs := by
    cases hd : w.data with
    | nil =>
      exfalso; apply hwne
      cases w with
      | mk d => rw [mk_eq_empty_iff]; exact hd
    | cons c cs => exact ⟨c, cs, rfl⟩
  have hcw : c.isWhitespace = false := hwchars c (by rw [hcData]; exact List.mem_cons_self c cs)
  have hcmem : c ∈ (pyJoin " " (sliceWords words s e)).data := by
    rw [hsl]
    cases rest with
    | nil =>
      show c ∈ w.data
      rw [hcData]; exact List.mem_cons_self c cs
    | cons x xs =>
      show c ∈ (w ++ " " ++ pyJoin " " (x :: xs)).data
      rw [data_append, data_append, hcData]
      simp
  unfold renderChunk pyStrip
  rw [Ne, mk_eq_empty_iff]
  intro hnil
  have := mem_stripData _ c hcmem hcw
  rw [hnil] at this
  simp at this

theorem filterMap_if_eq_map (l : List (Nat × Nat)) (g : Nat × Nat → String)
    (h : ∀ p ∈ l, g p ≠ "") :
    l.filterMap (fun p => if g p = "" then none else some (g p)) = l.map g := by
  induction l with
  | nil => simp
  | cons a as ih =>
    rw [List.filterMap_cons, List.map_cons]
    rw [if_neg (h a (List.mem_cons_self a as))]
    rw [ih fun p hp => h p (List.mem_cons_of_mem a hp)]

theorem chunkSpans_stop (n cs step start fuel : Nat) (h : ¬ start < n) :
    chunkSpans n cs step start fuel = [] := by
  cases fuel with
  | zero => simp [chunkSpans]
  | succ f => simp [chunkSpans, h]

/-- C1: for every `window_size > 0` and `0 ≤ overlap < window_size`, the
chunker succeeds and its chunks are exactly the renderings of the window
spans: the spans cover every one of the `n` token indices (so every original
word appears in some chunk), consecutive spans start `window_size - overlap`
apart (sharing the `overlap` words), and when the text has at least one word
the final span's end index equals `n`. -/
theorem chunk_text_covers (text : String) (cs ov : Int)
    (hcs : 0 < cs) (hov0 : 0 ≤ ov) (hov : ov < cs) :
    chunk_text text cs ov =
      Except.ok ((chunkSpans (pySplit text).length cs.toNat (cs - ov).toNat 0
          (pySplit text).length).map
        (fun p => renderChunk (pySplit text) p.1 p.2)) ∧
    (∀ i, i < (pySplit text).length →
      ∃ p ∈ chunkSpans (pySplit text).length cs.toNat (cs - ov).toNat 0
          (pySplit text).length, p.1 ≤ i ∧ i < p.2) ∧
    List.Chain' (fun p q => q.1 = p.1 + (cs - ov).toNat)
      (chunkSpans (pySplit text).length cs.toNat (cs - ov).toNat 0
        (pySplit text).length) ∧
    (0 < (pySplit text).length →
      ∃ s, (chunkSpans (pySplit text).length cs.toNat (cs - ov).toNat 0
          (pySplit text).length).getLast? = some (s, (pySplit text).length)) := by
  have hstep : 0 < (cs - ov).toNat := by omega
  have hsc : (cs - ov).toNat ≤ cs.toNat := by omega
  refine ⟨?_, ?_, ?_, ?_⟩
  · have h1 : chunk_text text cs ov =
        Except.ok (chunkLoop (pySplit text) (pySplit text).length cs.toNat
          (cs - ov).toNat 0 (pySplit text).length) := by
      simp only [chunk_text, if_neg (show ¬ cs ≤ 0 by omega),
        if_neg (show ¬ ov ≥ cs by omega)]
    rw [h1, chunkLoop_eq_spans]
    rw [filterMap_if_eq_map]
    intro p hp
    obtain ⟨_, h2, h3⟩ :=
      chunkSpans_wf (pySplit text).length cs.toNat (cs - ov).toNat (by omega) _ 0 p hp
    exact renderChunk_ne_empty (pySplit text) (pySplit_wordlike text) p.1 p.2 h2
      (by omega)
  · intro i hi
    exact chunkSpans_cover (pySplit text).length cs.toNat (cs - ov).toNat hstep hsc
      (pySplit text).length 0 (by omega) i (by omega) hi
  · exact chunkSpans_chain (pySplit text).length cs.toNat (cs - ov).toNat
      (pySplit text).length 0
  · intro hn
    exact chunkSpans_last (pySplit text).length cs.toNat (cs - ov).toNat hstep hsc
      (pySplit text).length 0 (by omega) hn

theorem chunk_text_covers_witness :
    (0 : Int) < 1 ∧ (0 : Int) ≤ 0 ∧ (0 : Int) < 1 ∧
    (chunk_text "a b" 1 0 =
      Except.ok ((chunkSpans (pySplit "a b").length (1 : Int).toNat
          ((1 : Int) - 0).toNat 0 (pySplit "a b").length).map
        (fun p => renderChunk (pySplit "a b") p.1 p.2)) ∧
    (∀ i, i < (pySplit "a b").length →
      ∃ p ∈ chunkSpans (pySplit "a b").length (1 : Int).toNat
          ((1 : Int) - 0).toNat 0 (pySplit "a b").length, p.1 ≤ i ∧ i < p.2) ∧
    List.Chain' (fun p q => q.1 = p.1 + ((1 : Int) - 0).toNat)
      (chunkSpans (pySplit "a b").length (1 : Int).toNat ((1 : Int) - 0).toNat 0
        (pySplit "a b").length) ∧
    (0 < (pySplit "a b").length →
      ∃ s, (chunkSpans (pySplit "a b").length (1 : Int).toNat
          ((1 : Int) - 0).toNat 0 (pySplit "a b").length).getLast? =
        some (s, (pySplit "a b").length))) :=
  ⟨by norm_num, by norm_num, by norm_num,
    chunk_text_covers "a b" 1 0 (by norm_num) (by norm_num) (by norm_num)⟩

/-- C3: `chunk_text` fails (with the `InvalidConfiguration` error, modelled as
`Except.error`) exactly when `window_size ≤ 0`; for a positive window size an
overlap that is at least the window size never fails and behaves exactly as
if the overlap were `window_size // 4`; after this clamping the sliding step
is always at least 1. -/
theorem chunk_text_error_iff (text : String) (cs ov : Int) :
    ((∃ msg, chunk_text text cs ov = Except.error msg) ↔ cs ≤ 0) ∧
    (0 < cs → cs ≤ ov → chunk_text text cs ov = chunk_text text cs (cs / 4)) ∧
    (0 < cs → 1 ≤ cs - (if ov ≥ cs then max 0 (cs / 4) else ov)) := by
  refine ⟨⟨?_, ?_⟩, ?_, ?_⟩
  · rintro ⟨msg, h⟩
    by_contra hcs
    simp only [chunk_text, if_neg hcs] at h
    exact Except.noConfusion h
  · intro h
    exact ⟨"chunk_size_words must be > 0", by simp only [chunk_text, if_pos h]⟩
  · intro h1 h2
    simp only [chunk_text, if_neg (show ¬ cs ≤ 0 by omega),
      if_pos (show ov ≥ cs by omega), if_neg (show ¬ cs / 4 ≥ cs by omega)]
    rw [show max 0 (cs / 4) = cs / 4 by omega]
  · intro h
    by_cases hc : ov ≥ cs
    · rw [if_pos hc]; omega
    · rw [if_neg hc]; omega

theorem chunk_text_error_iff_witness :
    (((∃ msg, chunk_text "x y" 0 0 = Except.error msg) ↔ (0 : Int) ≤ 0) ∧
     ((0 : Int) < 0 → (0 : Int) ≤ 0 → chunk_text "x y" 0 0 = chunk_text "x y" 0 (0 / 4)) ∧
     ((0 : Int) < 0 → 1 ≤ 0 - (if (0 : Int) ≥ 0 then max 0 ((0 : Int) / 4) else 0))) ∧
    (0 : Int) < 5 ∧ (5 : Int) ≤ 7 ∧
    chunk_text "x y" 5 7 = chunk_text "x y" 5 (5 / 4) := by
  refine ⟨chunk_text_error_iff "x y" 0 0, by norm_num, by norm_num, ?_⟩
  exact (chunk_text_error_iff "x y" 5 7).2.1 (by norm_num) (by norm_num)

/-- C10: for a positive window size and a negative overlap the chunker raises
no error and slides with step `window_size - overlap`, which exceeds
`window_size`; consequently on any text of exactly `window_size + 1` words the
loop emits the single window `[0, window_size)` and the final word (token
index `window_size`, which is a valid index) lies in no window, i.e. it
appears in no output chunk. -/
theorem chunk_text_negative_overlap (cs ov : Int) (hcs : 0 < cs) (hov : ov < 0) :
    (∀ text, chunk_text text cs ov =
      Except.ok ((chunkSpans (pySplit text).length cs.toNat (cs - ov).toNat 0
          (pySplit text).length).filterMap
        (fun p => if renderChunk (pySplit text) p.1 p.2 = "" then none
                  else some (renderChunk (pySplit text) p.1 p.2)))) ∧
    cs < cs - ov ∧
    (∀ n : Nat, n = cs.toNat + 1 →
      chunkSpans n cs.toNat (cs - ov).toNat 0 n = [(0, cs.toNat)] ∧ cs.toNat < n) := by
  refine ⟨?_, by omega, ?_⟩
  · intro text
    simp only [chunk_text, if_neg (show ¬ cs ≤ 0 by omega),
      if_neg (show ¬ ov ≥ cs by omega)]
    rw [chunkLoop_eq_spans]
  · intro n hn
    subst hn
    refine ⟨?_, by omega⟩
    have hc1 : 1 ≤ cs.toNat := by omega
    have hstep : cs.toNat + 1 ≤ (cs - ov).toNat := by omega
    rw [show cs.toNat + 1 = cs.toNat + 1 from rfl]
    simp only [chunkSpans]
    rw [if_pos (show 0 < cs.toNat + 1 by omega)]
    rw [show min (0 + cs.toNat) (cs.toNat + 1) = cs.toNat by omega]
    rw [if_neg (show ¬ cs.toNat = cs.toNat + 1 by omega)]
    rw [chunkSpans_stop _ _ _ _ _ (by omega)]

theorem ok_ne_error {ε α : Type} (a : α) (e : ε) :
    (Except.ok a : Except ε α) ≠ Except.error e :=
  fun h => Except.noConfusion h

theorem chunk_text_negative_overlap_witness :
    (0 : Int) < 2 ∧ (-1 : Int) < 0 ∧
    ((∀ text, chunk_text text 2 (-1) =
      Except.ok ((chunkSpans (pySplit text).length (2 : Int).toNat
          ((2 : Int) - (-1)).toNat 0 (pySplit text).length).filterMap
        (fun p => if renderChunk (pySplit text) p.1 p.2 = "" then none
                  else some (renderChunk (pySplit text) p.1 p.2)))) ∧
    (2 : Int) < 2 - (-1) ∧
    (∀ n : Nat, n = (2 : Int).toNat + 1 →
      chunkSpans n (2 : Int).toNat ((2 : Int) - (-1)).toNat 0 n =
        [(0, (2 : Int).toNat)] ∧ (2 : Int).toNat < n)) :=
  ⟨by norm_num, by norm_num,
    chunk_text_negative_overlap 2 (-1) (by norm_num) (by norm_num)⟩

/-! Lemmas about the stable descending sort. -/

theorem pyInsertDesc_perm {α : Type} (key : α → Rat) (e : α) (l : List α) :
    List.Perm (pyInsertDesc key e l) (e :: l) := by
  induction l with
  | nil => exact List.Perm.refl _
  | cons h t ih =>
    by_cases hc : key h < key e
    · rw [pyInsertDesc, if_pos hc]
    · rw [pyInsertDesc, if_neg hc]
      exact (ih.cons h).trans (List.Perm.swap e h t)

theorem pySortDesc_foldl_perm {α : Type} (key : α → Rat) :
    ∀ (l acc : List α),
      List.Perm (l.foldl (fun a e => pyInsertDesc key e a) acc) (acc ++ l) := by
  intro l
  induction l with
  | nil => intro acc; simp
  | cons x xs ih =>
    intro acc
    rw [List.foldl_cons]
    refine (ih (pyInsertDesc key x acc)).trans ?_
    refine (((pyInsertDesc_perm key x acc).append_right xs).trans ?_)
    exact List.perm_middle.symm

theorem pySortDesc_perm {α : Type} (key : α → Rat) (l : List α) :
    List.Perm (pySortDesc key l) l := by
  simpa using pySortDesc_foldl_perm key l []

theorem pyInsertDesc_pairwise {α : Type} (key : α → Rat) (e : α) (l : List α)
    (h : l.Pairwise (fun a b => key b ≤ key a)) :
    (pyInsertDesc key e l).Pairwise (fun a b => key b ≤ key a) := by
  induction l with
  | nil => simp [pyInsertDesc]
  | cons x t ih =>
    rcases List.pairwise_cons.mp h with ⟨hx, ht⟩
    by_cases hc : key x < key e
    · rw [pyInsertDesc, if_pos hc, List.pairwise_cons]
      refine ⟨?_, h⟩
      intro b hb
      rcases List.mem_cons.mp hb with hb | hb
      · rw [hb]; exact le_of_lt hc
      · exact le_trans (hx b hb) (le_of_lt hc)
    · rw [pyInsertDesc, if_neg hc, List.pairwise_cons]
      refine ⟨?_, ih ht⟩
      intro b hb
      rcases List.mem_cons.mp ((pyInsertDesc_perm key e t).mem_iff.mp hb) with hb | hb
      · rw [hb]; exact le_of_not_lt hc
      · exact hx b hb

theorem pySortDesc_foldl_pairwise {α : Type} (key : α → Rat) :
    ∀ (l acc : List α), acc.Pairwise (fun a b => key b ≤ key a) →
      (l.foldl (fun a e => pyInsertDesc key e a) acc).Pairwise
        (fun a b => key b ≤ key a) := by
  intro l
  induction l with
  | nil => intro acc h; simpa using h
  | cons x xs ih =>
    intro acc h
    rw [List.foldl_cons]
    exact ih (pyInsertDesc key x acc) (pyInsertDesc_pairwise key x acc h)

theorem pySortDesc_pairwise {α : Type} (key : α → Rat) (l : List α) :
    (pySortDesc key l).Pairwise (fun a b => key b ≤ key a) :=
  pySortDesc_foldl_pairwise key l [] (by simp)

theorem pyInsertDesc_stable {β : Type} (key : β → Rat) (e : Nat × β)
    (l : List (Nat × β))
    (h : l.Pairwise (fun p q =>
      key q.2 < key p.2 ∨ (key p.2 = key q.2 ∧ p.1 < q.1)))
    (hidx : ∀ x ∈ l, x.1 < e.1) :
    (pyInsertDesc (fun p => key p.2) e l).Pairwise (fun p q =>
      key q.2 < key p.2 ∨ (key p.2 = key q.2 ∧ p.1 < q.1)) := by
  induction l with
  | nil => simp [pyInsertDesc]
  | cons x t ih =>
    rcases List.pairwise_cons.mp h with ⟨hx, ht⟩
    have hxidx : x.1 < e.1 := hidx x (List.mem_cons_self x t)
    by_cases hc : key x.2 < key e.2
    · rw [pyInsertDesc, if_pos hc, List.pairwise_cons]
      refine ⟨?_, h⟩
      intro b hb
      rcases List.mem_cons.mp hb with hb | hb
      · rw [hb]; exact Or.inl hc
      · rcases hx b hb with hb2 | hb2
        · exact Or.inl (lt_trans hb2 hc)
        · exact Or.inl (hb2.1 ▸ hc)
    · rw [pyInsertDesc, if_neg hc, List.pairwise_cons]
      refine ⟨?_, ih ht (fun y hy => hidx y (List.mem_cons_of_mem x hy))⟩
      intro b hb
      rcases List.mem_cons.mp
          ((pyInsertDesc_perm (fun p => key p.2) e t).mem_iff.mp hb) with hb | hb
      · rcases eq_or_lt_of_le (le_of_not_lt hc) with heq | hlt
        · exact hb ▸ Or.inr ⟨heq.symm, hxidx⟩
        · exact hb ▸ Or.inl hlt
      · exact hx b hb

theorem pySortDesc_foldl_stable {β : Type} (key : β → Rat) :
    ∀ (l acc : List (Nat × β)),
      acc.Pairwise (fun p q =>
        key q.2 < key p.2 ∨ (key p.2 = key q.2 ∧ p.1 < q.1)) →
      l.Pairwise (fun x y => x.1 < y.1) →
      (∀ x ∈ acc, ∀ y ∈ l, x.1 < y.1) →
      (l.foldl (fun a e => pyInsertDesc (fun p => key p.2) e a) acc).Pairwise
        (fun p q => key q.2 < key p.2 ∨ (key p.2 = key q.2 ∧ p.1 < q.1)) := by
  intro l
  induction l with
  | nil => intro acc h _ _; simpa using h
  | cons y ys ih =>
    intro acc hacc hl hcross
    rw [List.foldl_cons]
    rcases List.pairwise_cons.mp hl with ⟨hy, hys⟩
    refine ih (pyInsertDesc (fun p => key p.2) y acc) ?_ hys ?_
    · exact pyInsertDesc_stable key y acc hacc
        (fun x hx => hcross x hx y (List.mem_cons_self y ys))
    · intro x hx z hz
      rcases List.mem_cons.mp
          ((pyInsertDesc_perm (fun p => key p.2) y acc).mem_iff.mp hx) with hx | hx
      · exact hx ▸ hy z hz
      · exact hcross x hx z (List.mem_cons_of_mem y hz)

theorem pySortDesc_stable {β : Type} (key : β → Rat) (l : List (Nat × β))
    (hl : l.Pairwise (fun x y => x.1 < y.1)) :
    (pySortDesc (fun p => key p.2) l).Pairwise (fun p q =>
      key q.2 < key p.2 ∨ (key p.2 = key q.2 ∧ p.1 < q.1)) :=
  pySortDesc_foldl_stable key l [] (by simp) hl (by simp)

theorem le_fst_of_mem_enumFrom {β : Type} :
    ∀ (l : List β) (i : Nat) (y : Nat × β), y ∈ List.enumFrom i l → i ≤ y.1 := by
  intro l
  induction l with
  | nil => intro i y hy; simp at hy
  | cons a t ih =>
    intro i y hy
    rcases List.mem_cons.mp hy with h | h
    · rw [h]
    · exact le_trans (Nat.le_succ i) (ih (i + 1) y h)

theorem enumFrom_fst_lt {β : Type} :
    ∀ (l : List β) (i : Nat),
      (List.enumFrom i l).Pairwise (fun x y => x.1 < y.1) := by
  intro l
  induction l with
  | nil => intro i; simp
  | cons a t ih =>
    intro i
    rw [show List.enumFrom i (a :: t) = (i, a) :: List.enumFrom (i + 1) t from rfl,
      List.pairwise_cons]
    exact ⟨fun y hy => lt_of_lt_of_le (Nat.lt_succ_self i)
      (le_fst_of_mem_enumFrom t (i + 1) y hy), ih (i + 1)⟩

theorem enum_fst_lt {β : Type} (l : List β) :
    l.enum.Pairwise (fun x y => x.1 < y.1) :=
  enumFrom_fst_lt l 0

theorem pyInsertDesc_map_snd {β : Type} (key : β → Rat) (e : Nat × β)
    (l : List (Nat × β)) :
    (pyInsertDesc (fun p => key p.2) e l).map Prod.snd =
      pyInsertDesc key e.2 (l.map Prod.snd) := by
  induction l with
  | nil => simp [pyInsertDesc]
  | cons x t ih =>
    by_cases hc : key x.2 < key e.2
    · simp [pyInsertDesc, hc]
    · simp [pyInsertDesc, hc, ih]

theorem pySortDesc_foldl_map_snd {β : Type} (key : β → Rat) :
    ∀ (l acc : List (Nat × β)),
      (l.foldl (fun a e => pyInsertDesc (fun p => key p.2) e a) acc).map Prod.snd =
        (l.map Prod.snd).foldl (fun a x => pyInsertDesc key x a)
          (acc.map Prod.snd) := by
  intro l
  induction l with
  | nil => intro acc; simp
  | cons x xs ih =>
    intro acc
    rw [List.foldl_cons, List.map_cons, List.foldl_cons, ih,
      pyInsertDesc_map_snd]

theorem pySortDesc_enum_map_snd {β : Type} (key : β → Rat) (l : List β) :
    (pySortDesc (fun p => key p.2) l.enum).map Prod.snd = pySortDesc key l := by
  unfold pySortDesc
  rw [pySortDesc_foldl_map_snd, List.enum_map_snd]
  rfl

/-- C7: the retriever's ranking stage sorts the scanned chunk entries by
similarity in descending order; the sort is a permutation of the scan, it is
stable — on the index-tagged scan the output is strictly ordered by
(similarity descending, scan position ascending), so equal similarities keep
their scan order — and when the store holds fewer than `k` chunks the
`take k` of the ranking returns all of them, still ranked. -/
theorem retrieve_ranking (sim : List Rat → List Rat → Rat)
    (parse : String → List Rat) (encode : String → List Rat) (st : Store)
    (query : String) (k : Nat) :
    List.Perm
      (pySortDesc (fun sc => sc.sim) (scanScores sim parse (encode query) st.chunks))
      (scanScores sim parse (encode query) st.chunks) ∧
    (pySortDesc (fun sc => sc.sim)
      (scanScores sim parse (encode query) st.chunks)).Pairwise
      (fun a b => b.sim ≤ a.sim) ∧
    (pySortDesc (fun p => p.2.sim)
      (scanScores sim parse (encode query) st.chunks).enum).map Prod.snd =
      pySortDesc (fun sc => sc.sim) (scanScores sim parse (encode query) st.chunks) ∧
    (pySortDesc (fun p => p.2.sim)
      (scanScores sim parse (encode query) st.chunks).enum).Pairwise
      (fun p q => q.2.sim < p.2.sim ∨ (p.2.sim = q.2.sim ∧ p.1 < q.1)) ∧
    (st.chunks.length < k →
      (pySortDesc (fun sc => sc.sim)
        (scanScores sim parse (encode query) st.chunks)).take k =
        pySortDesc (fun sc => sc.sim) (scanScores sim parse (encode query) st.chunks) ∧
      (pySortDesc (fun sc => sc.sim)
        (scanScores sim parse (encode query) st.chunks)).length =
        st.chunks.length) := by
  refine ⟨pySortDesc_perm _ _, pySortDesc_pairwise _ _,
    pySortDesc_enum_map_snd (fun sc : ScoredChunk => sc.sim) _,
    pySortDesc_stable (fun sc : ScoredChunk => sc.sim) _ (enum_fst_lt _), ?_⟩
  intro hk
  have hlen : (pySortDesc (fun sc : ScoredChunk => sc.sim)
      (scanScores sim parse (encode query) st.chunks)).length =
      (scanScores sim parse (encode query) st.chunks).length :=
    (pySortDesc_perm _ _).length_eq
  have hL : (scanScores sim parse (encode query) st.chunks).length =
      st.chunks.length := by
    unfold scanScores; rw [List.length_map]
  exact ⟨List.take_of_length_le (by omega), by omega⟩

theorem retrieve_ranking_witness :
    (Store.mk [] [ChunkRow.mk "c1" "d" 0 "t1" "e1",
        ChunkRow.mk "c2" "d" 1 "t2" "e2"]).chunks.length < 5 ∧
    (List.Perm
      (pySortDesc (fun sc : ScoredChunk => sc.sim) (scanScores (fun _ _ => 0) (fun _ => [])
        ((fun _ => []) "q")
        (Store.mk [] [ChunkRow.mk "c1" "d" 0 "t1" "e1",
          ChunkRow.mk "c2" "d" 1 "t2" "e2"]).chunks))
      (scanScores (fun _ _ => 0) (fun _ => []) ((fun _ => []) "q")
        (Store.mk [] [ChunkRow.mk "c1" "d" 0 "t1" "e1",
          ChunkRow.mk "c2" "d" 1 "t2" "e2"]).chunks) ∧
    (pySortDesc (fun sc : ScoredChunk => sc.sim) (scanScores (fun _ _ => 0) (fun _ => [])
      ((fun _ => []) "q")
      (Store.mk [] [ChunkRow.mk "c1" "d" 0 "t1" "e1",
        ChunkRow.mk "c2" "d" 1 "t2" "e2"]).chunks)).Pairwise
      (fun a b => b.sim ≤ a.sim) ∧
    (pySortDesc (fun p : Nat × ScoredChunk => p.2.sim) (scanScores (fun _ _ => 0) (fun _ => [])
      ((fun _ => []) "q")
      (Store.mk [] [ChunkRow.mk "c1" "d" 0 "t1" "e1",
        ChunkRow.mk "c2" "d" 1 "t2" "e2"]).chunks).enum).map Prod.snd =
      pySortDesc (fun sc : ScoredChunk => sc.sim) (scanScores (fun _ _ => 0) (fun _ => [])
        ((fun _ => []) "q")
        (Store.mk [] [ChunkRow.mk "c1" "d" 0 "t1" "e1",
          ChunkRow.mk "c2" "d" 1 "t2" "e2"]).chunks) ∧
    (pySortDesc (fun p : Nat × ScoredChunk => p.2.sim) (scanScores (fun _ _ => 0) (fun _ => [])
      ((fun _ => []) "q")
      (Store.mk [] [ChunkRow.mk "c1" "d" 0 "t1" "e1",
        ChunkRow.mk "c2" "d" 1 "t2" "e2"]).chunks).enum).Pairwise
      (fun p q => q.2.sim < p.2.sim ∨ (p.2.sim = q.2.sim ∧ p.1 < q.1)) ∧
    ((Store.mk [] [ChunkRow.mk "c1" "d" 0 "t1" "e1",
        ChunkRow.mk "c2" "d" 1 "t2" "e2"]).chunks.length < 5 →
      (pySortDesc (fun sc : ScoredChunk => sc.sim) (scanScores (fun _ _ => 0) (fun _ => [])
        ((fun _ => []) "q")
        (Store.mk [] [ChunkRow.mk "c1" "d" 0 "t1" "e1",
          ChunkRow.mk "c2" "d" 1 "t2" "e2"]).chunks)).take 5 =
        pySortDesc (fun sc : ScoredChunk => sc.sim) (scanScores (fun _ _ => 0) (fun _ => [])
          ((fun _ => []) "q")
          (Store.mk [] [ChunkRow.mk "c1" "d" 0 "t1" "e1",
            ChunkRow.mk "c2" "d" 1 "t2" "e2"]).chunks) ∧
      (pySortDesc (fun sc : ScoredChunk => sc.sim) (scanScores (fun _ _ => 0) (fun _ => [])
        ((fun _ => []) "q")
        (Store.mk [] [ChunkRow.mk "c1" "d" 0 "t1" "e1",
          ChunkRow.mk "c2" "d" 1 "t2" "e2"]).chunks)).length =
        (Store.mk [] [ChunkRow.mk "c1" "d" 0 "t1" "e1",
          ChunkRow.mk "c2" "d" 1 "t2" "e2"]).chunks.length)) :=
  ⟨by decide,
    retrieve_ranking (fun _ _ => 0) (fun _ => []) (fun _ => [])
      (Store.mk [] [ChunkRow.mk "c1" "d" 0 "t1" "e1",
        ChunkRow.mk "c2" "d" 1 "t2" "e2"]) "q" 5⟩

/-! Lemmas about the store operations. -/

theorem buildChunkRows_map_index (d : String) (g : Nat → String)
    (e : String → String) (ps : List String) :
    (buildChunkRows d g e ps).map (fun c => c.chunk_index) =
      (List.range ps.length).map Int.ofNat := by
  unfold buildChunkRows
  rw [List.map_map]
  rw [show ((fun c : ChunkRow => c.chunk_index) ∘
      fun p : Nat × String => ChunkRow.mk (g p.1) d (Int.ofNat p.1) p.2 (e p.2)) =
      (Int.ofNat ∘ Prod.fst) from rfl]
  rw [← List.map_map, List.enum_map_fst]

theorem buildChunkRows_doc (d : String) (g : Nat → String)
    (e : String → String) (ps : List String) :
    ∀ r ∈ buildChunkRows d g e ps, r.document_id = d := by
  intro r hr
  unfold buildChunkRows at hr
  rcases List.mem_map.mp hr with ⟨p, _, hrfl⟩
  rw [← hrfl]

theorem buildChunkRows_id (d : String) (g : Nat → String)
    (e : String → String) (ps : List String) :
    ∀ r ∈ buildChunkRows d g e ps, ∃ n, r.id = g n := by
  intro r hr
  unfold buildChunkRows at hr
  rcases List.mem_map.mp hr with ⟨p, _, hrfl⟩
  exact ⟨p.1, by rw [← hrfl]⟩

theorem reindexFromPath_ok (fs : String → Option String) (genId : Nat → String)
    (embed : String → String) (st : Store) (d path : String) (cs ov : Int)
    (st2 : Store) (cnt : Nat)
    (h : reindexFromPath fs genId embed st d path cs ov = Except.ok (st2, cnt)) :
    ∃ pieces : List String,
      st2 = Store.mk st.documents
        (st.chunks.filter (fun c => decide (¬ c.document_id = d)) ++
          buildChunkRows d genId embed pieces) ∧
      cnt = pieces.length := by
  unfold reindexFromPath at h
  split at h
  · exact absurd h (by simp)
  · split at h
    · exact absurd h (by simp)
    · split at h
      · exact absurd h (by simp)
      · simp only [Except.ok.injEq, Prod.mk.injEq] at h
        exact ⟨_, h.1.symm, h.2.symm⟩

/-- C4: a successful reindex leaves, for the given document, exactly the chunk
rows just inserted: their `chunk_index` values read in storage order are
precisely `0, 1, ..., chunk_count - 1` (contiguous, no gaps, no duplicates),
and no chunk row of the prior version survives ( `genId` models `uuid.uuid4`,
so the freshly generated chunk ids differ from every pre-existing chunk id). -/
theorem reindex_chunk_run (fs : String → Option String) (genId : Nat → String)
    (embed : String → String) (st : Store) (document_id : String)
    (p : Option String) (cs ov : Int) (st2 : Store) (cnt : Nat)
    (hfresh : ∀ n : Nat, ∀ c ∈ st.chunks, ¬ genId n = c.id)
    (h : reindex_document fs genId embed st document_id p cs ov =
      Except.ok (st2, cnt)) :
    (st2.chunks.filter (fun c => decide (c.document_id = document_id))).map
      (fun c => c.chunk_index) = (List.range cnt).map Int.ofNat ∧
    ∀ c ∈ st.chunks, c.document_id = document_id → ¬ c ∈ st2.chunks := by
  have hok : ∃ pieces : List String,
      st2 = Store.mk st.documents
        (st.chunks.filter (fun c => decide (¬ c.document_id = document_id)) ++
          buildChunkRows document_id genId embed pieces) ∧
      cnt = pieces.length := by
    unfold reindex_document at h
    cases p with
    | some pth =>
      exact reindexFromPath_ok fs genId embed st document_id pth cs ov st2 cnt h
    | none =>
      cases hfd : findDoc st document_id with
      | none => rw [hfd] at h; exact absurd h (by simp)
      | some row =>
        rw [hfd] at h
        exact reindexFromPath_ok fs genId embed st document_id row.path cs ov st2 cnt h
  obtain ⟨pieces, hst2, hcnt⟩ := hok
  subst hst2
  subst hcnt
  constructor
  · show ((st.chunks.filter (fun c => decide (¬ c.document_id = document_id)) ++
      buildChunkRows document_id genId embed pieces).filter
        (fun c => decide (c.document_id = document_id))).map (fun c => c.chunk_index) = _
    rw [List.filter_append]
    have h1 : (st.chunks.filter
        (fun c => decide (¬ c.document_id = document_id))).filter
        (fun c => decide (c.document_id = document_id)) = [] := by
      rw [List.filter_filter]
      rw [show (fun c : ChunkRow => decide (c.document_id = document_id) &&
          decide (¬ c.document_id = document_id)) = fun _ => false from by
        funext c
        by_cases hc : c.document_id = document_id <;> simp [hc]]
      exact List.filter_false st.chunks
    have h2 : (buildChunkRows document_id genId embed pieces).filter
        (fun c => decide (c.document_id = document_id)) =
        buildChunkRows document_id genId embed pieces := by
      apply List.filter_eq_self.mpr
      intro a ha
      simp [buildChunkRows_doc document_id genId embed pieces a ha]
    rw [h1, h2, List.nil_append, buildChunkRows_map_index]
  · intro c hc hcd hmem
    rcases List.mem_append.mp hmem with hm | hm
    · have hfil := (List.mem_filter.mp hm).2
      simp only [decide_eq_true_eq] at hfil
      exact hfil hcd
    · obtain ⟨n, hn⟩ := buildChunkRows_id document_id genId embed pieces c hm
      exact hfresh n c hc hn.symm

theorem reindex_chunk_run_witness :
    ((Store.mk [DocRow.mk "d" "t" "f" "now"]
        [ChunkRow.mk "nid" "d" (Int.ofNat 0) "hello world" "E2"]).chunks.filter
        (fun c => decide (c.document_id = "d"))).map (fun c => c.chunk_index) =
      (List.range 1).map Int.ofNat ∧
    ∀ c ∈ (Store.mk [DocRow.mk "d" "t" "f" "now"]
        [ChunkRow.mk "old0" "d" (Int.ofNat 0) "x" "E"]).chunks,
      c.document_id = "d" →
      ¬ c ∈ (Store.mk [DocRow.mk "d" "t" "f" "now"]
        [ChunkRow.mk "nid" "d" (Int.ofNat 0) "hello world" "E2"]).chunks :=
  reindex_chunk_run (fun p => if p = "f" then some "hello world" else none)
    (fun _ => "nid") (fun _ => "E2")
    (Store.mk [DocRow.mk "d" "t" "f" "now"]
      [ChunkRow.mk "old0" "d" (Int.ofNat 0) "x" "E"])
    "d" none 200 50
    (Store.mk [DocRow.mk "d" "t" "f" "now"]
      [ChunkRow.mk "nid" "d" (Int.ofNat 0) "hello world" "E2"])
    1
    (by
      intro n c hc
      simp only [List.mem_singleton] at hc
      subst hc
      simp)
    rfl

/-- C5 (amended): `reindex_document` fails with `NotFound` exactly on the
stored-path branch (no new source supplied, unknown `document_id`); on that
branch an unreadable stored source fails with `SourceUnavailable`
(`fileNotFound`), and with a supplied source an unreadable source likewise
fails with `SourceUnavailable`; but with a supplied source an unknown
`document_id` is never reported as `NotFound` (the operation instead succeeds
with zero chunks or fails on the chunk insert's foreign-key constraint). -/
theorem reindex_error_classification (fs : String → Option String)
    (genId : Nat → String) (embed : String → String) (st : Store)
    (document_id : String) (cs ov : Int) :
    (findDoc st document_id = none →
      reindex_document fs genId embed st document_id none cs ov =
        Except.error DbError.notFound) ∧
    (∀ row, findDoc st document_id = some row → fs row.path = none →
      reindex_document fs genId embed st document_id none cs ov =
        Except.error DbError.fileNotFound) ∧
    (∀ p, fs p = none →
      reindex_document fs genId embed st document_id (some p) cs ov =
        Except.error DbError.fileNotFound) ∧
    (∀ p, ¬ reindex_document fs genId embed st document_id (some p) cs ov =
        Except.error DbError.notFound) := by
  refine ⟨?_, ?_, ?_, ?_⟩
  · intro h
    simp only [reindex_document, h]
  · intro row h hfs
    simp only [reindex_document, reindexFromPath, h, hfs]
  · intro p hfs
    simp only [reindex_document, reindexFromPath, hfs]
  · intro p
    simp only [reindex_document, reindexFromPath]
    cases hfs : fs p with
    | none => simp
    | some text =>
      cases hct : chunk_text text cs ov with
      | error m => simp [hct]
      | ok pieces =>
        by_cases hcond : 0 < pieces.length ∧ (findDoc st document_id).isNone
        · simp [hct, hcond]
        · have hcond2 : ¬(0 < pieces.length ∧ findDoc st document_id = none) := by
            simpa [Option.isNone_iff_eq_none] using hcond
          simp [hct, hcond2]

theorem reindex_error_classification_witness :
    findDoc (Store.mk [DocRow.mk "d" "t" "f" "now"] []) "d" =
      some (DocRow.mk "d" "t" "f" "now") ∧
    (fun _ : String => (none : Option String)) "f" = none ∧
    reindex_document (fun _ => none) (fun _ => "c") (fun _ => "e")
      (Store.mk [DocRow.mk "d" "t" "f" "now"] []) "d" none 200 50 =
      Except.error DbError.fileNotFound ∧
    findDoc (Store.mk [] []) "d" = none ∧
    reindex_document (fun _ => none) (fun _ => "c") (fun _ => "e")
      (Store.mk [] []) "d" none 200 50 = Except.error DbError.notFound :=
  ⟨rfl, rfl,
    (reindex_error_classification (fun _ => none) (fun _ => "c") (fun _ => "e")
      (Store.mk [DocRow.mk "d" "t" "f" "now"] []) "d" 200 50).2.1
      (DocRow.mk "d" "t" "f" "now") rfl rfl,
    rfl,
    (reindex_error_classification (fun _ => none) (fun _ => "c") (fun _ => "e")
      (Store.mk [] []) "d" 200 50).1 rfl⟩

theorem reindex_unknown_doc_counterexample :
    reindex_document (fun p => if p = "f" then some "" else none) (fun _ => "cid")
      (fun _ => "emb") (Store.mk [] []) "doc1" (some "f") 200 50 =
      Except.ok (Store.mk [] [], 0) ∧
    ¬ reindex_document (fun p => if p = "f" then some "" else none) (fun _ => "cid")
      (fun _ => "emb") (Store.mk [] []) "doc1" (some "f") 200 50 =
      Except.error DbError.notFound :=
  ⟨rfl, fun h => ok_ne_error ((Store.mk [] [] : Store), (0 : Nat)) DbError.notFound
    (show Except.ok ((Store.mk [] [] : Store), (0 : Nat)) =
      Except.error DbError.notFound from h)⟩

/-- C6 (amended): empty or whitespace-only text is rejected with no Document
row created on both ingestion paths, but only the file path raises the
`ValidationError` (`ValueError("File is empty")`); the pasted-text path
returns the failure message "❌ No text provided" without raising and without
touching the store. -/
theorem ingestion_empty_rejected (fs : String → Option String) (docId : String)
    (genId : Nat → String) (embed : String → String) (now : String) (st : Store) :
    (∀ file_path title cs ov text, fs file_path = some text → pyStrip text = "" →
      add_document_from_file fs docId genId embed now st file_path title cs ov =
        Except.error DbError.validationError) ∧
    (∀ tmpPath text title cs ov, pyStrip text = "" →
      add_document_from_text fs tmpPath docId genId embed now st text title cs ov =
        Except.ok (st, "❌ No text provided")) := by
  constructor
  · intro file_path title cs ov text hfs hstrip
    simp only [add_document_from_file, hfs, hstrip, if_pos]
  · intro tmpPath text title cs ov hstrip
    simp only [add_document_from_text, hstrip, if_pos]

theorem ingestion_empty_rejected_witness :
    (fun p => if p = "f" then some "  " else (none : Option String)) "f" =
      some "  " ∧
    pyStrip "  " = "" ∧
    pyStrip " " = "" ∧
    add_document_from_file (fun p => if p = "f" then some "  " else none) "d0"
      (fun _ => "c") (fun _ => "e") "now" (Store.mk [] []) "f" none 200 50 =
      Except.error DbError.validationError ∧
    add_document_from_text (fun p => if p = "f" then some "  " else none) "tmp"
      "d0" (fun _ => "c") (fun _ => "e") "now" (Store.mk [] []) " " "t" 200 50 =
      Except.ok (Store.mk [] [], "❌ No text provided") :=
  ⟨rfl, rfl, rfl,
    (ingestion_empty_rejected (fun p => if p = "f" then some "  " else none) "d0"
      (fun _ => "c") (fun _ => "e") "now" (Store.mk [] [])).1 "f" none 200 50
      "  " rfl rfl,
    (ingestion_empty_rejected (fun p => if p = "f" then some "  " else none) "d0"
      (fun _ => "c") (fun _ => "e") "now" (Store.mk [] [])).2 "tmp" " " "t" 200 50
      rfl⟩

theorem add_text_empty_counterexample :
    add_document_from_text (fun _ => none) "tmp" "doc0" (fun _ => "cid")
      (fun _ => "emb") "now" (Store.mk [] []) "" "t" 200 50 =
      Except.ok (Store.mk [] [], "❌ No text provided") ∧
    ¬ add_document_from_text (fun _ => none) "tmp" "doc0" (fun _ => "cid")
      (fun _ => "emb") "now" (Store.mk [] []) "" "t" 200 50 =
      Except.error DbError.validationError :=
  ⟨rfl, fun h => ok_ne_error ((Store.mk [] [] : Store), "❌ No text provided")
    DbError.validationError
    (show Except.ok ((Store.mk [] [] : Store), "❌ No text provided") =
      Except.error DbError.validationError from h)⟩

/-! Lemmas about the deduplication loop. -/

theorem pyDedupAux_congr_seen :
    ∀ (l seen1 seen2 : List String), (∀ x, x ∈ seen1 ↔ x ∈ seen2) →
      pyDedupAux seen1 l = pyDedupAux seen2 l := by
  intro l
  induction l with
  | nil => intro seen1 seen2 h; simp [pyDedupAux]
  | cons c rest ih =>
    intro seen1 seen2 h
    by_cases hc : c ∈ seen1
    · rw [pyDedupAux, if_pos hc, pyDedupAux, if_pos ((h c).mp hc)]
      exact ih seen1 seen2 h
    · rw [pyDedupAux, if_neg hc, pyDedupAux, if_neg (fun hx => hc ((h c).mpr hx))]
      rw [ih (c :: seen1) (c :: seen2) (by intro x; simp [h x])]

theorem pyDedupAux_seen_cons :
    ∀ (l seen : List String) (c : String),
      pyDedupAux (c :: seen) l =
        pyDedupAux seen (l.filter (fun x => decide (¬ x = c))) := by
  intro l
  induction l with
  | nil => intro seen c; simp [pyDedupAux]
  | cons a rest ih =>
    intro seen c
    by_cases hac : a = c
    · rw [pyDedupAux, if_pos (hac ▸ List.mem_cons_self c seen),
        List.filter_cons_of_neg (by simp [hac])]
      exact ih seen c
    · rw [List.filter_cons_of_pos (by simp [hac])]
      by_cases has : a ∈ seen
      · rw [pyDedupAux, if_pos (List.mem_cons_of_mem c has),
          pyDedupAux, if_pos has]
        exact ih seen c
      · rw [pyDedupAux, if_neg (by
            intro hx
            rcases List.mem_cons.mp hx with hx | hx
            · exact hac hx
            · exact has hx),
          pyDedupAux, if_neg has]
        rw [pyDedupAux_congr_seen rest (a :: c :: seen) (c :: a :: seen)
          (by intro x; constructor <;> (intro hx; simp at hx; simp [hx]; tauto))]
        rw [ih (a :: seen) c]

theorem pyDedup_cons (c : String) (rest : List String) :
    pyDedup (c :: rest) = c :: pyDedup (rest.filter (fun x => decide (¬ x = c))) := by
  show pyDedupAux [] (c :: rest) = _
  rw [pyDedupAux, if_neg (List.not_mem_nil c), pyDedupAux_seen_cons rest [] c]
  rfl

theorem pyDedupAux_nodup_strong :
    ∀ (l seen : List String),
      (pyDedupAux seen l).Nodup ∧ ∀ x ∈ pyDedupAux seen l, ¬ x ∈ seen := by
  intro l
  induction l with
  | nil => intro seen; simp [pyDedupAux]
  | cons c rest ih =>
    intro seen
    by_cases hc : c ∈ seen
    · rw [pyDedupAux, if_pos hc]; exact ih seen
    · rw [pyDedupAux, if_neg hc]
      obtain ⟨hnd, hmem⟩ := ih (c :: seen)
      refine ⟨List.nodup_cons.mpr ⟨?_, hnd⟩, ?_⟩
      · intro hin
        exact hmem c hin (List.mem_cons_self c seen)
      · intro x hx
        rcases List.mem_cons.mp hx with hx | hx
        · rw [hx]; exact hc
        · intro hxs
          exact hmem x hx (List.mem_cons_of_mem c hxs)

theorem pyDedupAux_mem :
    ∀ (l seen : List String) (x : String),
      x ∈ pyDedupAux seen l ↔ x ∈ l ∧ ¬ x ∈ seen := by
  intro l
  induction l with
  | nil => intro seen x; simp [pyDedupAux]
  | cons c rest ih =>
    intro seen x
    by_cases hc : c ∈ seen
    · rw [pyDedupAux, if_pos hc, ih seen]
      constructor
      · rintro ⟨h1, h2⟩; exact ⟨List.mem_cons_of_mem c h1, h2⟩
      · rintro ⟨h1, h2⟩
        rcases List.mem_cons.mp h1 with h1 | h1
        · exact absurd (h1 ▸ hc) h2
        · exact ⟨h1, h2⟩
    · rw [pyDedupAux, if_neg hc]
      constructor
      · intro hx
        rcases List.mem_cons.mp hx with hx | hx
        · exact ⟨hx ▸ List.mem_cons_self c rest, hx ▸ hc⟩
        · obtain ⟨h1, h2⟩ := (ih (c :: seen) x).mp hx
          exact ⟨List.mem_cons_of_mem c h1,
            fun hs => h2 (List.mem_cons_of_mem c hs)⟩
      · rintro ⟨h1, h2⟩
        rcases List.mem_cons.mp h1 with h1 | h1
        · exact h1 ▸ List.mem_cons_self c _
        · by_cases hxc : x = c
          · exact hxc ▸ List.mem_cons_self c _
          · exact List.mem_cons_of_mem c ((ih (c :: seen) x).mpr
              ⟨h1, fun hs => (List.mem_cons.mp hs).elim hxc h2⟩)

theorem pyDedupAux_sublist :
    ∀ (l seen : List String), List.Sublist (pyDedupAux seen l) l := by
  intro l
  induction l with
  | nil => intro seen; simp [pyDedupAux]
  | cons c rest ih =>
    intro seen
    by_cases hc : c ∈ seen
    · rw [pyDedupAux, if_pos hc]
      exact (ih seen).cons c
    · rw [pyDedupAux, if_neg hc]
      exact (ih (c :: seen)).cons₂ c

/-- C8: the retriever's output is the first-occurrence deduplication of the
flattened context list in which each top-k hit contributes its own text
followed by the texts of every stored chunk of the same document whose
`chunk_index` lies in `[chunk_index - 1, chunk_index + 1]`, in stored order;
the deduplication keeps exactly the first occurrence of each text (head kept,
later duplicates of it filtered out, recursively), yielding a duplicate-free
subsequence with the same elements; and on a concrete five-chunk document a
hit at `chunk_index = 2` contributes exactly the chunks at indices 1, 2, 3. -/
theorem retrieve_context_expansion (sim : List Rat → List Rat → Rat)
    (parse : String → List Rat) (encode : String → List Rat) (st : Store)
    (query : String) (k : Nat) :
    retrieve_chunks sim parse encode st query k =
      pyDedup (((pySortDesc (fun sc : ScoredChunk => sc.sim)
        (scanScores sim parse (encode query) st.chunks)).take k).flatMap
        (fun h => h.text :: neighborTexts st.chunks h.doc h.idx)) ∧
    (∀ (d : String) (i : Int) (t : String),
      t ∈ neighborTexts st.chunks d i ↔
        ∃ c ∈ st.chunks, c.document_id = d ∧ i - 1 ≤ c.chunk_index ∧
          c.chunk_index ≤ i + 1 ∧ c.text = t) ∧
    (∀ (c : String) (rest : List String),
      pyDedup (c :: rest) =
        c :: pyDedup (rest.filter (fun x => decide (¬ x = c)))) ∧
    (∀ l : List String, (pyDedup l).Nodup ∧ (∀ x, x ∈ pyDedup l ↔ x ∈ l) ∧
      List.Sublist (pyDedup l) l) ∧
    neighborTexts
      [ChunkRow.mk "c0" "D" 0 "t0" "e0", ChunkRow.mk "c1" "D" 1 "t1" "e1",
       ChunkRow.mk "c2" "D" 2 "t2" "e2", ChunkRow.mk "c3" "D" 3 "t3" "e3",
       ChunkRow.mk "c4" "D" 4 "t4" "e4"] "D" 2 = ["t1", "t2", "t3"] ∧
    retrieve_chunks (fun _ b => b.headD 0)
      (fun s => if s = "e2" then [2] else [1]) (fun _ => [])
      (Store.mk []
        [ChunkRow.mk "c0" "D" 0 "t0" "e0", ChunkRow.mk "c1" "D" 1 "t1" "e1",
         ChunkRow.mk "c2" "D" 2 "t2" "e2", ChunkRow.mk "c3" "D" 3 "t3" "e3",
         ChunkRow.mk "c4" "D" 4 "t4" "e4"]) "q" 1 = ["t2", "t1", "t3"] := by
  refine ⟨rfl, ?_, pyDedup_cons, ?_, ?_, ?_⟩
  · intro d i t
    simp only [neighborTexts, List.mem_map, List.mem_filter, decide_eq_true_eq]
    constructor
    · rintro ⟨c, ⟨hcm, hcp⟩, ht⟩
      exact ⟨c, hcm, hcp.1, hcp.2.1, hcp.2.2, ht⟩
    · rintro ⟨c, hcm, h1, h2, h3, ht⟩
      exact ⟨c, ⟨hcm, h1, h2, h3⟩, ht⟩
  · intro l
    exact ⟨(pyDedupAux_nodup_strong l []).1,
      fun x => by rw [pyDedup, pyDedupAux_mem]; simp,
      pyDedupAux_sublist l []⟩
  · rfl
  · rfl

/-- C9: the failing input for the zero-magnitude similarity case.  In the
source, `cosine_similarity` divides by `norm(a) * norm(b)` with no guard; for
a stored zero embedding that denominator is zero (its square
`normSq a * normSq b` evaluates to zero below), so the float computation is
`0.0 / 0.0`, which numpy evaluates to NaN rather than treating the chunk as
similarity 0 or skipping it — the NaN then corrupts the descending sort. -/
theorem cosine_zero_magnitude_divisor :
    normSq [(0 : Rat), 0] = 0 ∧
    normSq [(0 : Rat), 0] * normSq [(3 : Rat), 4] = 0 ∧
    dotQ [(0 : Rat), 0] [(3 : Rat), 4] = 0 := by
  refine ⟨?_, ?_, ?_⟩ <;> norm_num [normSq, dotQ]

end AskAi
